import Mathlib

/-!
# claude-statusline: the status-line renderer (`scripts/statusline.mjs`)

A shallow embedding of the renderer script and the properties its
specification states about it.

Modelling conventions.

* A JavaScript string is the list of its UTF-16 code units (`JSString`).
  `length`, `slice`, `split`, `trim` and the regular expressions of the script
  all work on code units, so the model does too.
* Everything the script obtains from outside (the file system, the clock, the
  `git` subprocesses, `JSON.parse`) is read from an explicit environment
  `Env` or from the file-system state `FS`, which is threaded through.
* A JavaScript exception that leaves a function is the `Except.error` result.
-/

namespace Statusline

/-! ## JavaScript strings -/

/-- A JavaScript string: its UTF-16 code units. -/
abbrev JSString := List Nat

/-- UTF-16 code units of one Unicode scalar value. -/
def encodeChar (c : Char) : JSString :=
  if c.toNat < 0x10000 then [c.toNat]
  else [0xD800 + (c.toNat - 0x10000) / 0x400, 0xDC00 + (c.toNat - 0x10000) % 0x400]

/-- The JavaScript string written as the literal `s` in the source. -/
def utf16 (s : String) : JSString :=
  (s.toList.map encodeChar).flatten

/-- Code units matched by `\s` and stripped by `String.prototype.trim`
(ECMAScript WhiteSpace and LineTerminator). -/
def isWhiteSpace (c : Nat) : Bool :=
  c == 0x09 || c == 0x0A || c == 0x0B || c == 0x0C || c == 0x0D || c == 0x20 ||
  c == 0xA0 || c == 0x1680 || (0x2000 ≤ c && c ≤ 0x200A) ||
  c == 0x2028 || c == 0x2029 || c == 0x202F || c == 0x205F || c == 0x3000 ||
  c == 0xFEFF

/-- The line feed `'\n'`. -/
def LF : Nat := 0x0A

/-- The space `' '`. -/
def SP : Nat := 0x20

/-- Model of `String.prototype.trim`. -/
def trim (s : JSString) : JSString :=
  (s.dropWhile isWhiteSpace).rdropWhile isWhiteSpace

/-- Model of `str.split(sep)` for a separator of one code unit: the pieces
between the occurrences of `sep`; never the empty array. -/
def split (sep : Nat) : JSString → List JSString
  | [] => [[]]
  | c :: cs =>
    if c = sep then [] :: split sep cs
    else
      match split sep cs with
      | [] => [[c]]
      | p :: ps => (c :: p) :: ps

/-- The scan of `str.replace(/\s+/g, ' ')`: `inMatch` tells that the code
unit before the current one belongs to a match of `\s+` whose replacement has
been emitted already, so that a greedy match swallows the whole run. -/
def replaceWhitespaceRunsFrom (inMatch : Bool) : JSString → JSString
  | [] => []
  | c :: cs =>
    if isWhiteSpace c then
      if inMatch then replaceWhitespaceRunsFrom true cs
      else SP :: replaceWhitespaceRunsFrom true cs
    else c :: replaceWhitespaceRunsFrom false cs

/-- Model of `str.replace(/\s+/g, ' ')`. -/
def replaceWhitespaceRuns (s : JSString) : JSString :=
  replaceWhitespaceRunsFrom false s

/-- Model of `str.slice(0, n)`. -/
def slice0 (n : Nat) (s : JSString) : JSString :=
  s.take n

/-- The constant `PROMPT_MAX_LEN`. -/
def PROMPT_MAX_LEN : Nat := 40

/-- The literal `'…'`. -/
def ELLIPSIS : JSString := utf16 "…"

/-! ## Persisted state -/

/-- One entry of the cache document: `{ status, time }`. -/
structure CacheEntry where
  status : JSString
  time : Int
deriving DecidableEq

/-- The cache document: workspace path ↦ entry, in property order. -/
abbrev CacheStore := List (JSString × CacheEntry)

/-- What the script can find at `GIT_CACHE_FILE`. `store c` is a file holding
a document of the shape the script itself writes (an object of entries with a
string `status` and an integer `time`); `invalid` is a file on which
`JSON.parse` throws. Valid JSON of any other shape is not modelled. -/
inductive CacheFile where
  | missing
  | unreadable
  | invalid
  | store (c : CacheStore)
deriving DecidableEq

/-- What the script can find at `PROMPT_FILE`. -/
inductive PromptFile where
  | missing
  | unreadable
  | text (s : JSString)
deriving DecidableEq

/-- Contents of `STATE_DIR`. -/
structure StateDir where
  cache : CacheFile
  prompt : PromptFile
deriving DecidableEq

/-- The part of the file system the script reads and writes; `stateDir = none`
when `STATE_DIR` does not exist. -/
structure FS where
  stateDir : Option StateDir
deriving DecidableEq

/-- The prompt file as seen through `existsSync(PROMPT_FILE)` and
`readFileSync(PROMPT_FILE)`. -/
def FS.promptFile (fs : FS) : PromptFile :=
  match fs.stateDir with
  | none => .missing
  | some d => d.prompt

/-! ## Prompt snippet -/

/-- The body of the `try` block of `getPromptSnippet` on the text read from
the prompt file: `none` when an exception is thrown inside it. -/
def promptSnippetOfText (s : JSString) : Option JSString :=
  match (split LF s).head? with
  | none => none
  | some line =>
    let prompt := trim (replaceWhitespaceRuns line)
    if prompt.length > PROMPT_MAX_LEN then
      some (slice0 PROMPT_MAX_LEN prompt ++ ELLIPSIS)
    else
      some prompt

/-- Model of `getPromptSnippet()`. -/
def getPromptSnippet (fs : FS) : JSString :=
  match fs.promptFile with
  | .missing => []
  | .unreadable => []
  | .text s =>
    match promptSnippetOfText s with
    | some prompt => prompt
    | none => []

/-! ## Values and input decoding -/

/-- An exception leaving a function of the script. -/
inductive JSError where
  | typeError
  | systemError
deriving DecidableEq

/-- JavaScript values as `JSON.parse` produces them, and `undefined`.
Numbers are the integers. -/
inductive JSVal where
  | undefined
  | null
  | bool (b : Bool)
  | num (n : Int)
  | str (s : JSString)
  | arr (xs : List JSVal)
  | obj (props : List (JSString × JSVal))

/-- JavaScript truthiness (`ToBoolean`). -/
def JSVal.truthy : JSVal → Bool
  | .undefined => false
  | .null => false
  | .bool b => b
  | .num n => n != 0
  | .str s => s != []
  | .arr _ => true
  | .obj _ => true

/-- Own property `k` of an object given by its property list. -/
def lookupProp (k : JSString) : List (JSString × JSVal) → JSVal
  | [] => .undefined
  | (k', v) :: rest => if k' = k then v else lookupProp k rest

/-- Model of `o?.[k]` for the keys `main` uses: `undefined` on `null` and
`undefined`, the own property on an object, and `undefined` on the other
values (arrays, strings, numbers and booleans have no member of those
names). -/
def optionalMember (o : JSVal) (k : JSString) : JSVal :=
  match o with
  | .obj props => lookupProp k props
  | _ => .undefined

/-- Model of `a ?? b`. -/
def nullish (a b : JSVal) : JSVal :=
  match a with
  | .undefined => b
  | .null => b
  | v => v

/-- The full stop `'.'`. -/
def DOT : Nat := 0x2E

/-- Model of `getValue(obj, path)`. -/
def getValue (obj : JSVal) (path : JSString) : JSVal :=
  nullish ((split DOT path).foldl optionalMember obj) (.str [])

/-- Model of `parseJSON(str)`; `jsonParse` is `JSON.parse`, `none` where it
throws. -/
def parseJSON (jsonParse : JSString → Option JSVal) (str : JSString) : JSVal :=
  match jsonParse str with
  | some v => v
  | none => .obj []

/-! ## Model name -/

/-- Model of `str.replace(pat, repl)` with a string pattern: the first
occurrence of `pat` is replaced. -/
def replaceFirst (pat repl : JSString) : JSString → JSString
  | [] => if pat = [] then repl else []
  | c :: cs =>
    if pat.isPrefixOf (c :: cs) then repl ++ (c :: cs).drop pat.length
    else c :: replaceFirst pat repl cs

/-- The hyphen `'-'`. -/
def HYPHEN : Nat := 0x2D

/-- Model of `str.replace(/ /g, '-')`. -/
def replaceSpaces (s : JSString) : JSString :=
  s.map (fun c => if c = SP then HYPHEN else c)

/-- Model of `shortenModelName(model)`: calling `.replace` on a value that is
not a string throws a `TypeError`. -/
def shortenModelName (model : JSVal) : Except JSError JSString :=
  if !model.truthy then .ok []
  else
    match model with
    | .str m => .ok (replaceSpaces (replaceFirst (utf16 "Claude ") [] m))
    | _ => .error .typeError

/-! ## Environment -/

/-- The four `git` commands the script runs through `execSync`. -/
inductive GitCmd where
  | isInsideWorkTree
  | branchShowCurrent
  | revParseShortHead
  | statusPorcelain
deriving DecidableEq

/-- One `execSync` call: the command and its `cwd`. -/
structure Call where
  cmd : GitCmd
  cwd : JSString
deriving DecidableEq

/-- What one run of the script reads from outside. `execSync cmd cwd` is the
standard output of the command, `none` when `execSync` throws; `nowCheck` and
`nowWrite` are the values of `Date.now()` at the cache check and at the cache
update. -/
structure Env where
  jsonParse : JSString → Option JSVal
  pathExists : JSString → Bool
  mkdirOk : Bool
  writeOk : Bool
  nowCheck : Int
  nowWrite : Int
  execSync : GitCmd → JSString → Option JSString

deriving instance DecidableEq for Except

/-- What a call leaves behind: its completion, the file system after it and
the `execSync` calls it made, in order. -/
structure Outcome where
  result : Except JSError JSString
  fs : FS
  calls : List Call
deriving DecidableEq

/-- The constant `GIT_CACHE_TTL`. -/
def GIT_CACHE_TTL : Int := 2000

/-- Model of `existsSync(path)` on the workspace value: `false` on anything
that is not a string. -/
def existsSync (env : Env) : JSVal → Bool
  | .str p => env.pathExists p
  | _ => false

/-- The cache file as seen through `existsSync(GIT_CACHE_FILE)` and
`readFileSync(GIT_CACHE_FILE)`. -/
def FS.cacheFile (fs : FS) : CacheFile :=
  match fs.stateDir with
  | none => .missing
  | some d => d.cache

/-- Model of `cache[workspace]`. -/
def getEntry (w : JSString) : CacheStore → Option CacheEntry
  | [] => none
  | (k, e) :: rest => if k = w then some e else getEntry w rest

/-- Model of `cache[workspace] = entry`. -/
def setEntry (w : JSString) (entry : CacheEntry) : CacheStore → CacheStore
  | [] => [(w, entry)]
  | (k, e) :: rest =>
    if k = w then (k, entry) :: rest else (k, e) :: setEntry w entry rest

/-! ## VCS status with caching -/

/-- Lines 73-84 of `getGitStatus`: the status of a cache entry that may be
used, `none` when the script goes on to query `git`. -/
def cachedStatus (env : Env) (fs : FS) (w : JSString) : Option JSString :=
  match fs.cacheFile with
  | .missing => none
  | .unreadable => none
  | .invalid => none
  | .store cache =>
    match getEntry w cache with
    | none => none
    | some entry =>
      if env.nowCheck - entry.time < GIT_CACHE_TTL then some entry.status else none

/-- The literal `'detached'`. -/
def DETACHED : JSString := utf16 "detached"

/-- Lines 96-115: the branch name and the commands run for it. -/
def getBranch (env : Env) (w : JSString) : JSString × List Call :=
  match env.execSync .branchShowCurrent w with
  | some out => (trim out, [⟨.branchShowCurrent, w⟩])
  | none =>
    match env.execSync .revParseShortHead w with
    | some out =>
      (if trim out != [] then trim out else DETACHED,
        [⟨.branchShowCurrent, w⟩, ⟨.revParseShortHead, w⟩])
    | none => (DETACHED, [⟨.branchShowCurrent, w⟩, ⟨.revParseShortHead, w⟩])

/-- Lines 117-128: the number of changed files and the command run for it. -/
def countChanged (env : Env) (w : JSString) : Nat × List Call :=
  match env.execSync .statusPorcelain w with
  | some porcelain =>
    (((split LF porcelain).filter (fun line => trim line != [])).length,
      [⟨.statusPorcelain, w⟩])
  | none => (0, [⟨.statusPorcelain, w⟩])

/-- Lines 130-135: the status text. -/
def formatStatus (branch : JSString) (changed : Nat) : JSString :=
  if changed > 0 then
    utf16 " " ++ branch ++ utf16 " ±" ++ utf16 (Nat.repr changed)
  else
    utf16 " " ++ branch

/-- Lines 137-147: the cache update; the file system is left as it was when
reading, parsing or writing fails. -/
def updateCache (env : Env) (fs : FS) (w : JSString) (gitStatus : JSString) : FS :=
  match fs.stateDir with
  | none => fs
  | some d =>
    let loaded : Option CacheStore :=
      match d.cache with
      | .missing => some []
      | .unreadable => none
      | .invalid => none
      | .store cache => some cache
    match loaded with
    | none => fs
    | some cache =>
      if env.writeOk then
        ⟨some { d with cache := .store (setEntry w ⟨gitStatus, env.nowWrite⟩ cache) }⟩
      else fs

/-- Lines 86-153: the fresh status. -/
def freshStatus (env : Env) (fs : FS) (w : JSString) : Outcome :=
  match env.execSync .isInsideWorkTree w with
  | none => ⟨.ok [], fs, [⟨.isInsideWorkTree, w⟩]⟩
  | some _ =>
    let branch := getBranch env w
    let changed := countChanged env w
    let gitStatus := formatStatus branch.1 changed.1
    ⟨.ok gitStatus, updateCache env fs w gitStatus,
      ⟨.isInsideWorkTree, w⟩ :: (branch.2 ++ changed.2)⟩

/-- Lines 73-153: cache check, then fresh status. -/
def checkCacheThenFresh (env : Env) (fs : FS) (w : JSString) : Outcome :=
  match cachedStatus env fs w with
  | some status => ⟨.ok status, fs, []⟩
  | none => freshStatus env fs w

/-- Lines 68-153: `mkdirSync` is outside every `try`, so its exception leaves
`getGitStatus`. -/
def ensureStateDirThenStatus (env : Env) (fs : FS) (w : JSString) : Outcome :=
  match fs.stateDir with
  | some _ => checkCacheThenFresh env fs w
  | none =>
    if env.mkdirOk then checkCacheThenFresh env ⟨some ⟨.missing, .missing⟩⟩ w
    else ⟨.error .systemError, fs, []⟩

/-- Model of `getGitStatus(workspace)`. -/
def getGitStatus (env : Env) (fs : FS) (workspace : JSVal) : Outcome :=
  if !workspace.truthy || !existsSync env workspace then ⟨.ok [], fs, []⟩
  else
    match workspace with
    | .str w => ensureStateDirThenStatus env fs w
    | _ => ⟨.ok [], fs, []⟩

/-! ## Segments and the printed line -/

/-- The constant `RESET`. -/
def RESET : JSString := 0x1B :: utf16 "[0m"

/-- The constant `DIM`. -/
def DIM : JSString := 0x1B :: utf16 "[2m"

/-- The constant `MAGENTA`. -/
def MAGENTA : JSString := 0x1B :: utf16 "[35m"

/-- The constant `BLUE`. -/
def BLUE : JSString := 0x1B :: utf16 "[34m"

/-- The separator `' │ '`. -/
def SEPARATOR : JSString := utf16 " │ "

/-- Model of `segments.join(sep)`. -/
def join (sep : JSString) : List JSString → JSString
  | [] => []
  | [x] => x
  | x :: y :: rest => x ++ sep ++ join sep (y :: rest)

/-- The prompt segment pushed at line 204. -/
def promptSegment (prompt : JSString) : JSString :=
  DIM ++ utf16 "✎ " ++ prompt ++ RESET

/-- The git segment pushed at line 210. -/
def gitSegment (gitStatus : JSString) : JSString :=
  MAGENTA ++ gitStatus ++ RESET

/-- The model segment pushed at line 216. -/
def modelSegment (shortModel : JSString) : JSString :=
  DIM ++ BLUE ++ shortModel ++ RESET

/-- Model of `model !== 'null'`. -/
def notNullLiteral : JSVal → Bool
  | .str s => s != utf16 "null"
  | _ => true

/-- Lines 199-217: the segments pushed for a prompt snippet, a git status and
a model value. -/
def segmentsOf (prompt gitStatus : JSString) (model : JSVal) :
    Except JSError (List JSString) :=
  let segments : List JSString := []
  let segments := if prompt != [] then segments ++ [promptSegment prompt] else segments
  let segments := if gitStatus != [] then segments ++ [gitSegment gitStatus] else segments
  if model.truthy && notNullLiteral model then
    match shortenModelName model with
    | .error e => .error e
    | .ok shortModel => .ok (segments ++ [modelSegment shortModel])
  else .ok segments

/-- Lines 199-220: the line handed to `console.log`. -/
def renderLine (prompt gitStatus : JSString) (model : JSVal) : Except JSError JSString :=
  match segmentsOf prompt gitStatus model with
  | .error e => .error e
  | .ok segments => .ok (join SEPARATOR segments)

/-- Model of `readStdin()`; `stdin = none` when reading descriptor 0 throws. -/
def readStdin (stdin : Option JSString) : JSString :=
  match stdin with
  | some s => s
  | none => utf16 "\x7b\x7d"

/-- Model of `main()`: the line printed, or the exception that ends the
process. -/
def main (env : Env) (fs : FS) (stdin : Option JSString) : Outcome :=
  let input := parseJSON env.jsonParse (readStdin stdin)
  let model := getValue input (utf16 "model.display_name")
  let workspace := getValue input (utf16 "workspace.current_dir")
  let prompt := getPromptSnippet fs
  let git := getGitStatus env fs workspace
  match git.result with
  | .error e => ⟨.error e, git.fs, git.calls⟩
  | .ok gitStatus => ⟨renderLine prompt gitStatus model, git.fs, git.calls⟩

/-! ## Vocabulary of the specification -/

/-- The part of a text before its first newline. -/
def firstLine (s : JSString) : JSString :=
  s.takeWhile (fun c => c != LF)

/-- Two code units are both whitespace or both not. -/
def sameClass (a b : Nat) : Bool :=
  isWhiteSpace a == isWhiteSpace b

/-- Every maximal run of whitespace replaced by a single space: the text is
cut into its maximal runs of whitespace and of non-whitespace, and each
whitespace run becomes one space. -/
def collapseWhitespaceRuns (s : JSString) : JSString :=
  ((s.splitBy sameClass).map
    (fun run => if run.all isWhiteSpace then [SP] else run)).flatten

/-- A line is not blank when it has a code unit that is not whitespace. -/
def notBlank (line : JSString) : Bool :=
  line.any (fun c => !isWhiteSpace c)

/-- The text `u` of the snippet contract: the first line with every maximal
run of whitespace replaced by a single space and with leading and trailing
whitespace stripped. -/
def normalizedFirstLine (s : JSString) : JSString :=
  trim (collapseWhitespaceRuns (firstLine s))

/-- The segments of the composer contract, in the fixed order prompt, VCS
status, model: the prompt segment iff `p` is non-empty, the VCS segment iff
`g` is non-empty, the model segment iff `m` is non-empty and is not the
literal `'null'`. -/
def emittedSegments (p g m : JSString) : List JSString :=
  (if p ≠ [] then [promptSegment p] else [])
    ++ (if g ≠ [] then [gitSegment g] else [])
    ++ (if m ≠ [] ∧ m ≠ utf16 "null"
        then [modelSegment (replaceSpaces (replaceFirst (utf16 "Claude ") [] m))]
        else [])

/-- The tab `'\t'`. -/
def TAB : Nat := 0x09

/-! ## Sample runs -/

/-- A workspace path. -/
def samplePath : JSString := utf16 "/work/repo"

/-- The workspace is a repository on branch `main` with two changed files;
the state directory can be created and written. -/
def repoEnv : Env where
  jsonParse := fun _ => none
  pathExists := fun _ => true
  mkdirOk := true
  writeOk := true
  nowCheck := 10000
  nowWrite := 10050
  execSync := fun cmd _ =>
    match cmd with
    | .isInsideWorkTree => some (utf16 "true\n")
    | .branchShowCurrent => some (utf16 "main\n")
    | .revParseShortHead => some (utf16 "1a2b3c4\n")
    | .statusPorcelain => some (utf16 " M a.txt\n?? b.txt\n")

/-- The workspace exists and is not inside a working tree: every `git`
command fails. -/
def noRepoEnv : Env where
  jsonParse := fun _ => none
  pathExists := fun _ => true
  mkdirOk := true
  writeOk := true
  nowCheck := 10000
  nowWrite := 10050
  execSync := fun _ _ => none

/-- The workspace is the `.git` directory of a repository on branch `main`:
`git rev-parse --is-inside-work-tree` succeeds and prints `false`, and
`git status` fails there. -/
def gitDirEnv : Env where
  jsonParse := fun _ => none
  pathExists := fun _ => true
  mkdirOk := true
  writeOk := true
  nowCheck := 10000
  nowWrite := 10050
  execSync := fun cmd _ =>
    match cmd with
    | .isInsideWorkTree => some (utf16 "false\n")
    | .branchShowCurrent => some (utf16 "main\n")
    | .revParseShortHead => some (utf16 "1a2b3c4\n")
    | .statusPorcelain => none

/-- A clean repository with a detached `HEAD`: `git branch --show-current`
succeeds and prints nothing. -/
def detachedHeadEnv : Env where
  jsonParse := fun _ => none
  pathExists := fun _ => true
  mkdirOk := true
  writeOk := true
  nowCheck := 10000
  nowWrite := 10050
  execSync := fun cmd _ =>
    match cmd with
    | .isInsideWorkTree => some (utf16 "true\n")
    | .branchShowCurrent => some []
    | .revParseShortHead => some (utf16 "1a2b3c4\n")
    | .statusPorcelain => some []

/-- The repository of `repoEnv` when the state directory cannot be created. -/
def noStateDirEnv : Env where
  jsonParse := fun _ => none
  pathExists := fun _ => true
  mkdirOk := false
  writeOk := false
  nowCheck := 10000
  nowWrite := 10050
  execSync := repoEnv.execSync

/-- The text `{"model":{"display_name":5}}`. -/
def numericModelInput : JSString :=
  utf16 "\x7b\"model\":\x7b\"display_name\":5\x7d\x7d"

/-- The document `JSON.parse` makes of `numericModelInput`. -/
def numericModelDocument : JSVal :=
  .obj [(utf16 "model", .obj [(utf16 "display_name", .num 5)])]

/-- An environment whose standard input parses to `numericModelDocument`. -/
def numericModelEnv : Env where
  jsonParse := fun s => if s = numericModelInput then some numericModelDocument else none
  pathExists := fun _ => true
  mkdirOk := true
  writeOk := true
  nowCheck := 10000
  nowWrite := 10050
  execSync := fun _ _ => none

/-- A state directory holding no file. -/
def emptyStateDir : FS := ⟨some ⟨.missing, .missing⟩⟩

/-- A state directory whose cache holds `' main'` for `samplePath`, observed
at time 9000. -/
def cachedMainFS : FS :=
  ⟨some ⟨.store [(samplePath, ⟨utf16 " main", 9000⟩)], .missing⟩⟩

/-! ## Lemmas on the string primitives -/

theorem head?_split (sep : Nat) (s : JSString) :
    (split sep s).head? = some (s.takeWhile (fun c => c != sep)) := by
  induction s with
  | nil => rfl
  | cons c cs ih =>
    by_cases h : c = sep
    · simp [split, h]
    · cases hs : split sep cs with
      | nil => simp [hs] at ih
      | cons p ps =>
        simp [hs] at ih
        simp [split, h, hs, ih]

theorem splitByLoop_acc (r : Nat → Nat → Bool) (l : List Nat) (a : Nat) (g : List Nat)
    (gs : List (List Nat)) :
    List.splitBy.loop r l a g gs = gs.reverse ++ List.splitBy.loop r l a g [] := by
  induction l generalizing a g gs with
  | nil => simp [List.splitBy.loop]
  | cons b l ih =>
    simp only [List.splitBy.loop]
    cases r a b with
    | true => exact ih b (a :: g) gs
    | false =>
      rw [ih b [] ((a :: g).reverse :: gs), ih b [] [(a :: g).reverse]]
      simp

theorem collapse_loop (l : List Nat) (a : Nat) (g : List Nat)
    (hg : ∀ x ∈ g, isWhiteSpace x = isWhiteSpace a) :
    ((List.splitBy.loop sameClass l a g []).map
      (fun run => if run.all isWhiteSpace then [SP] else run)).flatten
      = (if isWhiteSpace a then [SP] else g.reverse ++ [a])
        ++ replaceWhitespaceRunsFrom (isWhiteSpace a) l := by
  have hrun : ((a :: g).reverse).all isWhiteSpace = isWhiteSpace a := by
    cases ha : isWhiteSpace a with
    | true =>
      simp only [List.all_reverse, List.all_cons, ha, Bool.true_and, List.all_eq_true]
      intro x hx; rw [hg x hx, ha]
    | false => simp [ha]
  induction l generalizing a g with
  | nil =>
    simp only [List.splitBy.loop, List.reverse_cons, List.reverse_nil, List.nil_append,
      List.map_cons, List.map_nil, List.flatten_cons, List.flatten_nil, List.append_nil,
      replaceWhitespaceRunsFrom]
    rw [List.reverse_cons] at hrun
    rw [hrun]
  | cons b l ih =>
    simp only [List.splitBy.loop]
    cases hr : sameClass a b with
    | true =>
      have hab : isWhiteSpace a = isWhiteSpace b := by simpa [sameClass] using hr
      have hg' : ∀ x ∈ a :: g, isWhiteSpace x = isWhiteSpace b := by
        intro x hx
        rcases List.mem_cons.1 hx with rfl | hx
        · exact hab
        · rw [hg x hx, hab]
      have hrun' : ((b :: a :: g).reverse).all isWhiteSpace = isWhiteSpace b := by
        cases hb : isWhiteSpace b with
        | true =>
          simp only [List.all_reverse, List.all_cons, hb, Bool.true_and, List.all_eq_true,
            Bool.and_eq_true]
          refine ⟨by rw [hab, hb], ?_⟩
          intro x hx; rw [hg x hx, hab, hb]
        | false => simp [hb]
      dsimp only
      rw [ih b (a :: g) hg' hrun']
      cases hb : isWhiteSpace b with
      | true => simp [replaceWhitespaceRunsFrom, hab, hb]
      | false => simp [replaceWhitespaceRunsFrom, hab, hb]
    | false =>
      have hab : isWhiteSpace a ≠ isWhiteSpace b := by simpa [sameClass] using hr
      dsimp only
      rw [splitByLoop_acc, List.map_append, List.flatten_append,
        ih b [] (by simp) (by simp)]
      simp only [List.reverse_cons, List.reverse_nil, List.nil_append, List.map_cons,
        List.map_nil, List.flatten_cons, List.flatten_nil, List.append_nil]
      rw [List.reverse_cons] at hrun
      rw [hrun]
      cases ha : isWhiteSpace a with
      | true =>
        have hb : isWhiteSpace b = false := by
          cases hb : isWhiteSpace b with
          | true => exact absurd (ha.trans hb.symm) hab
          | false => rfl
        simp [replaceWhitespaceRunsFrom, hb]
      | false =>
        have hb : isWhiteSpace b = true := by
          cases hb : isWhiteSpace b with
          | true => rfl
          | false => exact absurd (ha.trans hb.symm) hab
        simp [replaceWhitespaceRunsFrom, hb]

theorem replaceWhitespaceRuns_eq_collapse (s : JSString) :
    replaceWhitespaceRuns s = collapseWhitespaceRuns s := by
  cases s with
  | nil => rfl
  | cons a l =>
    unfold collapseWhitespaceRuns replaceWhitespaceRuns
    rw [List.splitBy, collapse_loop l a [] (by simp)]
    cases ha : isWhiteSpace a <;> simp [replaceWhitespaceRunsFrom, ha]


theorem mem_replaceWhitespaceRunsFrom (b : Bool) (s : JSString) (x : Nat)
    (hx : x ∈ replaceWhitespaceRunsFrom b s) : x = SP ∨ isWhiteSpace x = false := by
  induction s generalizing b with
  | nil => simp [replaceWhitespaceRunsFrom] at hx
  | cons c cs ih =>
    cases hc : isWhiteSpace c with
    | true =>
      cases b with
      | true =>
        simp only [replaceWhitespaceRunsFrom, hc, if_true] at hx
        exact ih true hx
      | false =>
        simp only [replaceWhitespaceRunsFrom, hc, if_true, Bool.false_eq_true, if_false,
          List.mem_cons] at hx
        rcases hx with rfl | hx
        · exact Or.inl rfl
        · exact ih true hx
    | false =>
      simp only [replaceWhitespaceRunsFrom, hc, Bool.false_eq_true, if_false,
        List.mem_cons] at hx
      rcases hx with rfl | hx
      · exact Or.inr hc
      · exact ih false hx

theorem mem_of_mem_trim (s : JSString) (x : Nat) (hx : x ∈ trim s) : x ∈ s := by
  unfold trim at hx
  exact (List.dropWhile_sublist _).subset ((List.rdropWhile_prefix _ _).subset hx)

theorem promptSnippetOfText_eq (s : JSString) :
    promptSnippetOfText s =
      some (if (normalizedFirstLine s).length > 40
        then (normalizedFirstLine s).take 40 ++ [0x2026]
        else normalizedFirstLine s) := by
  unfold promptSnippetOfText
  rw [head?_split]
  simp only [replaceWhitespaceRuns_eq_collapse]
  change (if (normalizedFirstLine s).length > 40 then
      some ((normalizedFirstLine s).take 40 ++ [0x2026]) else some (normalizedFirstLine s)) = _
  split <;> rfl

/-- C8. For every stored prompt text `s` (whatever the cache file is),
`getPromptSnippet` returns the text `t` obtained from
`u = normalizedFirstLine s` (the part of `s` before its first newline, every
maximal whitespace run replaced by one space, leading and trailing whitespace
stripped): `t` is the first 40 code units of `u` followed by the ellipsis
U+2026, of length exactly 41, when `u` is longer than 40, and `t = u`
otherwise; `t` never has more than 41 code units and contains neither a
newline nor a tab. -/
theorem getPromptSnippet_spec (cache : CacheFile) (s : JSString) :
    getPromptSnippet ⟨some ⟨cache, .text s⟩⟩ =
        (if (normalizedFirstLine s).length > 40
          then (normalizedFirstLine s).take 40 ++ [0x2026]
          else normalizedFirstLine s)
      ∧ (getPromptSnippet ⟨some ⟨cache, .text s⟩⟩).length =
        (if (normalizedFirstLine s).length > 40 then 41 else (normalizedFirstLine s).length)
      ∧ (getPromptSnippet ⟨some ⟨cache, .text s⟩⟩).length ≤ 41
      ∧ LF ∉ getPromptSnippet ⟨some ⟨cache, .text s⟩⟩
      ∧ TAB ∉ getPromptSnippet ⟨some ⟨cache, .text s⟩⟩ := by
  have hval : getPromptSnippet ⟨some ⟨cache, .text s⟩⟩ =
      (if (normalizedFirstLine s).length > 40
        then (normalizedFirstLine s).take 40 ++ [0x2026]
        else normalizedFirstLine s) := by
    simp only [getPromptSnippet, FS.promptFile, promptSnippetOfText_eq]
  have hmem : ∀ x ∈ normalizedFirstLine s, x = SP ∨ isWhiteSpace x = false := by
    intro x hx
    have h1 := mem_of_mem_trim _ _ hx
    rw [← replaceWhitespaceRuns_eq_collapse] at h1
    exact mem_replaceWhitespaceRunsFrom false _ x h1
  have hno : ∀ x, isWhiteSpace x = true → x ≠ SP → x ≠ 0x2026 →
      x ∉ getPromptSnippet ⟨some ⟨cache, .text s⟩⟩ := by
    intro x hw hsp hel hx
    rw [hval] at hx
    split at hx
    · rcases List.mem_append.1 hx with h | h
      · rcases hmem x (List.mem_of_mem_take h) with h' | h'
        · exact hsp h'
        · rw [hw] at h'; cases h'
      · exact hel (List.mem_singleton.1 h)
    · rcases hmem x hx with h' | h'
      · exact hsp h'
      · rw [hw] at h'; cases h'
  refine ⟨hval, ?_, ?_, hno LF (by decide) (by decide) (by decide),
    hno TAB (by decide) (by decide) (by decide)⟩
  · rw [hval]
    split
    · rename_i h
      simp only [List.length_append, List.length_take, List.length_singleton]
      omega
    · rfl
  · rw [hval]
    split
    · rename_i h
      simp only [List.length_append, List.length_take, List.length_singleton]
      omega
    · rename_i h
      omega

/-- C8 at concrete inputs: runs of blanks and a tab collapse and only the
first line is kept; a line of 41 code units is cut to 40 and the ellipsis. -/
theorem getPromptSnippet_spec_witness :
    getPromptSnippet ⟨some ⟨.missing, .text (utf16 "  fix   the\tbug  \nsecond line")⟩⟩
        = utf16 "fix the bug"
      ∧ getPromptSnippet
          ⟨some ⟨.missing, .text (utf16 "0123456789012345678901234567890123456789X")⟩⟩
        = utf16 "0123456789012345678901234567890123456789…" :=
  ⟨(getPromptSnippet_spec .missing (utf16 "  fix   the\tbug  \nsecond line")).1.trans
      (by decide),
    (getPromptSnippet_spec .missing
      (utf16 "0123456789012345678901234567890123456789X")).1.trans (by decide)⟩

/-! ## The printed line -/

theorem join_eq_intercalate (sep : JSString) (segs : List JSString) :
    join sep segs = sep.intercalate segs := by
  induction segs with
  | nil => rfl
  | cons x rest ih =>
    cases rest with
    | nil => simp [join, List.intercalate]
    | cons y rest =>
      rw [join, ih]
      simp [List.intercalate, List.intersperse]

theorem shortenModelName_str (m : JSString) :
    shortenModelName (.str m) = .ok (replaceSpaces (replaceFirst (utf16 "Claude ") [] m)) := by
  cases m with
  | nil => rfl
  | cons c cs => simp [shortenModelName, JSVal.truthy]

theorem segmentsOf_str (p g m : JSString) :
    segmentsOf p g (.str m) = .ok (emittedSegments p g m) := by
  unfold segmentsOf emittedSegments
  by_cases hm : m ≠ [] ∧ m ≠ utf16 "null"
  · have hc : ((JSVal.str m).truthy && notNullLiteral (.str m)) = true := by
      simp [JSVal.truthy, notNullLiteral, hm.1, hm.2]
    simp only [hc, if_true, shortenModelName_str, if_pos hm]
    by_cases hp : p = [] <;> by_cases hg : g = [] <;> simp [hp, hg]
  · have hc : ((JSVal.str m).truthy && notNullLiteral (.str m)) = false := by
      simp only [JSVal.truthy, notNullLiteral]
      by_cases h1 : m = []
      · simp [h1]
      · have h2 : m = utf16 "null" := by
          by_contra h2; exact hm ⟨h1, h2⟩
        simp [h2]
    simp only [hc, Bool.false_eq_true, if_false, if_neg hm]
    by_cases hp : p = [] <;> by_cases hg : g = [] <;> simp [hp, hg]

/-- C3. For every prompt snippet `p`, VCS status `g` and model name `m`, the
line printed is the emitted segments joined with `' │ '` in the order prompt,
VCS status, model, where the prompt segment is emitted iff `p` is non-empty,
the VCS segment iff `g` is non-empty and the model segment iff `m` is
non-empty and is not `'null'`; the line is empty when no segment is emitted
and is the segment itself when exactly one is emitted. -/
theorem renderLine_spec (p g m : JSString) :
    renderLine p g (.str m) = .ok (SEPARATOR.intercalate (emittedSegments p g m))
      ∧ (emittedSegments p g m = [] → renderLine p g (.str m) = .ok [])
      ∧ (∀ seg, emittedSegments p g m = [seg] → renderLine p g (.str m) = .ok seg) := by
  have key : renderLine p g (.str m)
      = .ok (SEPARATOR.intercalate (emittedSegments p g m)) := by
    unfold renderLine
    rw [segmentsOf_str]
    simp only [join_eq_intercalate]
  refine ⟨key, ?_, ?_⟩
  · intro h
    rw [key, h]; rfl
  · intro seg h
    rw [key, h]; simp [List.intercalate]

/-- C3 at a concrete input: the three segments in order, and the model
segment alone. -/
theorem renderLine_spec_witness :
    renderLine (utf16 "fix bug") (utf16 " main ±2") (.str (utf16 "Claude Opus 4"))
        = .ok (promptSegment (utf16 "fix bug") ++ SEPARATOR ++ gitSegment (utf16 " main ±2")
            ++ SEPARATOR ++ modelSegment (utf16 "Opus-4"))
      ∧ renderLine [] [] (.str (utf16 "Claude Opus 4.5"))
        = .ok (modelSegment (utf16 "Opus-4.5")) :=
  ⟨(renderLine_spec (utf16 "fix bug") (utf16 " main ±2") (utf16 "Claude Opus 4")).1.trans
      (by decide),
    (renderLine_spec [] [] (utf16 "Claude Opus 4.5")).1.trans (by decide)⟩

/-! ## The model segment -/

theorem getGitStatus_str (env : Env) (fs : FS) (w : JSString)
    (hw : w ≠ []) (hex : env.pathExists w = true) :
    getGitStatus env fs (.str w) = ensureStateDirThenStatus env fs w := by
  simp [getGitStatus, JSVal.truthy, existsSync, hw, hex]

theorem trim_eq_nil_iff (l : JSString) : trim l = [] ↔ notBlank l = false := by
  unfold trim notBlank
  rw [List.rdropWhile_eq_nil_iff]
  constructor
  · intro h
    have hd : l.dropWhile isWhiteSpace = [] := by
      by_contra hne
      have h1 := List.head_dropWhile_not isWhiteSpace l hne
      have h2 := h _ (List.head_mem hne)
      rw [h2] at h1
      cases h1
    rw [List.dropWhile_eq_nil_iff] at hd
    simpa using hd
  · intro h x hx
    have hall : ∀ y ∈ l, isWhiteSpace y = true := by simpa using h
    exact hall x ((List.dropWhile_sublist _).subset hx)

/-- C1. For every existing workspace path `w`, every readable cache store `c`
holding an entry `e` for `w` and every clock reading: when the age of `e` is
below 2000 ms, `getGitStatus(w)` returns the status of `e`, runs no `git`
command and leaves the file system, and so the cache store, as it was; when
the age is 2000 ms or more, the call first runs the working-tree query. -/
theorem getGitStatus_cached (env : Env) (w : JSString) (c : CacheStore)
    (prompt : PromptFile) (e : CacheEntry)
    (hw : w ≠ []) (hex : env.pathExists w = true) (he : getEntry w c = some e) :
    (env.nowCheck - e.time < 2000 →
        getGitStatus env ⟨some ⟨.store c, prompt⟩⟩ (.str w)
          = ⟨.ok e.status, ⟨some ⟨.store c, prompt⟩⟩, []⟩)
      ∧ (2000 ≤ env.nowCheck - e.time →
        (getGitStatus env ⟨some ⟨.store c, prompt⟩⟩ (.str w)).calls.head?
          = some ⟨.isInsideWorkTree, w⟩) := by
  rw [getGitStatus_str env _ w hw hex]
  constructor
  · intro hage
    simp [ensureStateDirThenStatus, checkCacheThenFresh, cachedStatus, FS.cacheFile, he,
      GIT_CACHE_TTL, hage]
  · intro hage
    have hnot : ¬ (env.nowCheck - e.time < 2000) := not_lt.2 hage
    simp only [ensureStateDirThenStatus, checkCacheThenFresh, cachedStatus, FS.cacheFile, he,
      GIT_CACHE_TTL, hnot, if_false, freshStatus]
    cases env.execSync .isInsideWorkTree w <;> rfl

/-- C1 at a concrete input: an entry observed at 9000 is returned at 10000. -/
theorem getGitStatus_cached_witness :
    getGitStatus repoEnv cachedMainFS (.str samplePath)
      = ⟨.ok (utf16 " main"), cachedMainFS, []⟩ :=
  (getGitStatus_cached repoEnv samplePath [(samplePath, ⟨utf16 " main", 9000⟩)] .missing
    ⟨utf16 " main", 9000⟩ (by decide) (by decide) (by decide)).1 (by decide)

theorem ensureStateDir_miss (env : Env) (fs : FS) (w : JSString)
    (hdir : fs.stateDir ≠ none ∨ env.mkdirOk = true)
    (hmiss : cachedStatus env fs w = none) :
    ∃ fs1 : FS, ensureStateDirThenStatus env fs w = freshStatus env fs1 w
      ∧ fs1.cacheFile = fs.cacheFile ∧ fs1.stateDir ≠ none
      ∧ (fs.stateDir ≠ none → fs1 = fs) := by
  cases hfs : fs.stateDir with
  | some d =>
    refine ⟨fs, ?_, rfl, by simp [hfs], fun _ => rfl⟩
    simp [ensureStateDirThenStatus, hfs, checkCacheThenFresh, hmiss]
  | none =>
    have hmk : env.mkdirOk = true := by
      rcases hdir with h | h
      · exact absurd hfs h
      · exact h
    refine ⟨⟨some ⟨.missing, .missing⟩⟩, ?_, ?_, by simp, fun h => absurd rfl h⟩
    · simp [ensureStateDirThenStatus, hfs, hmk, checkCacheThenFresh, cachedStatus,
        FS.cacheFile]
    · simp [FS.cacheFile, hfs]

/-- C4. For every repository workspace on a cache miss (the state directory
exists or can be created, no cache entry is usable, the working-tree query
succeeds), with `b` the branch name and `n` the number of lines of the status
output that are not blank (0 when that query fails): `getGitStatus` returns
`' b ±n'` when `n > 0` and `' b'` when `n = 0`. -/
theorem getGitStatus_fresh_format (env : Env) (fs : FS) (w out : JSString)
    (hw : w ≠ []) (hex : env.pathExists w = true)
    (hdir : fs.stateDir ≠ none ∨ env.mkdirOk = true)
    (hmiss : cachedStatus env fs w = none)
    (hrepo : env.execSync .isInsideWorkTree w = some out) :
    (getGitStatus env fs (.str w)).result =
      .ok (if (match env.execSync .statusPorcelain w with
                | some t => ((split LF t).filter notBlank).length
                | none => 0) > 0
          then utf16 " " ++ (getBranch env w).1 ++ utf16 " ±"
            ++ utf16 (toString (match env.execSync .statusPorcelain w with
                | some t => ((split LF t).filter notBlank).length
                | none => 0))
          else utf16 " " ++ (getBranch env w).1) := by
  obtain ⟨fs1, hrun, -, -, -⟩ := ensureStateDir_miss env fs w hdir hmiss
  rw [getGitStatus_str env fs w hw hex, hrun]
  have hfilter : ∀ t : JSString,
      (split LF t).filter (fun line => trim line != []) = (split LF t).filter notBlank := by
    intro t
    apply List.filter_congr
    intro line _
    cases hb : notBlank line with
    | false => simp [(trim_eq_nil_iff line).2 hb]
    | true =>
      have hne : trim line ≠ [] := by
        intro h; rw [(trim_eq_nil_iff line).1 h] at hb; cases hb
      simp [hne]
  simp only [freshStatus, hrepo, formatStatus, countChanged]
  cases hp : env.execSync .statusPorcelain w with
  | none => simp
  | some t => simp only [hfilter]; rfl

/-- C4 at a concrete input: branch `main`, two changed files. -/
theorem getGitStatus_fresh_format_witness :
    (getGitStatus repoEnv emptyStateDir (.str samplePath)).result = .ok (utf16 " main ±2") :=
  getGitStatus_fresh_format repoEnv emptyStateDir samplePath (utf16 "true\n")
    (by decide) (by decide) (by decide) (by decide) (by decide)

/-- C9 as stated fails on an existing path outside any working tree whose
cache entry is still fresh (the entry is returned), and on a path where the
working-tree query succeeds and prints `false` (the output is not read: a
status is computed and written to the cache). -/
theorem getGitStatus_nonrepo_nonempty :
    noRepoEnv.execSync .isInsideWorkTree samplePath = none
      ∧ getGitStatus noRepoEnv cachedMainFS (.str samplePath)
          = ⟨.ok (utf16 " main"), cachedMainFS, []⟩
      ∧ gitDirEnv.execSync .isInsideWorkTree samplePath = some (utf16 "false\n")
      ∧ getGitStatus gitDirEnv emptyStateDir (.str samplePath)
          = ⟨.ok (utf16 " main"),
              ⟨some ⟨.store [(samplePath, ⟨utf16 " main", 10050⟩)], .missing⟩⟩,
              [⟨.isInsideWorkTree, samplePath⟩, ⟨.branchShowCurrent, samplePath⟩,
                ⟨.statusPorcelain, samplePath⟩]⟩ := by
  decide

/-- C9, amended. For a workspace path that is empty or does not exist,
`getGitStatus` returns the empty string, runs no command and leaves the file
system as it was. For an existing path with no usable cache entry on which
the working-tree query fails, the state directory existing or being
creatable, it returns the empty string after that one query, the cache file
after the call is the cache file before it, and the file system is unchanged
when the state directory already existed. -/
theorem getGitStatus_empty (env : Env) (fs : FS) (w : JSString)
    (h : w = [] ∨ env.pathExists w = false ∨
      (cachedStatus env fs w = none ∧ env.execSync .isInsideWorkTree w = none
        ∧ (fs.stateDir ≠ none ∨ env.mkdirOk = true))) :
    (getGitStatus env fs (.str w)).result = .ok []
      ∧ (getGitStatus env fs (.str w)).fs.cacheFile = fs.cacheFile
      ∧ (fs.stateDir ≠ none → (getGitStatus env fs (.str w)).fs = fs)
      ∧ ((w = [] ∨ env.pathExists w = false) →
          getGitStatus env fs (.str w) = ⟨.ok [], fs, []⟩) := by
  by_cases hskip : w = [] ∨ env.pathExists w = false
  · have hval : getGitStatus env fs (.str w) = ⟨.ok [], fs, []⟩ := by
      rcases hskip with h0 | h0
      · simp [getGitStatus, JSVal.truthy, h0]
      · simp [getGitStatus, existsSync, h0]
    rw [hval]
    exact ⟨rfl, rfl, fun _ => rfl, fun _ => rfl⟩
  · have hw : w ≠ [] := fun h0 => hskip (Or.inl h0)
    have hex : env.pathExists w = true := by
      cases hp : env.pathExists w with
      | true => rfl
      | false => exact absurd (Or.inr hp) hskip
    rcases h with h | h | ⟨hmiss, hrepo, hdir⟩
    · exact absurd h hw
    · rw [hex] at h; cases h
    · obtain ⟨fs1, hrun, hcache, -, hsame⟩ := ensureStateDir_miss env fs w hdir hmiss
      rw [getGitStatus_str env fs w hw hex, hrun]
      simp only [freshStatus, hrepo]
      exact ⟨trivial, hcache, hsame, fun h0 => absurd h0 hskip⟩

/-- C9, amended, at a concrete input: an existing directory outside any
working tree, the state directory holding no cache file. -/
theorem getGitStatus_empty_witness :
    (getGitStatus noRepoEnv emptyStateDir (.str samplePath)).result = .ok []
      ∧ (getGitStatus noRepoEnv emptyStateDir (.str samplePath)).fs.cacheFile
          = emptyStateDir.cacheFile :=
  have h := getGitStatus_empty noRepoEnv emptyStateDir samplePath
    (Or.inr (Or.inr ⟨by decide, by decide, Or.inl (by decide)⟩))
  ⟨h.1, h.2.1⟩

/-- C5 fails on the code: in a clean repository with a detached `HEAD`, where
`git branch --show-current` succeeds and prints nothing, the short commit
identifier is never asked for and the status returned and cached is `' '`,
with an empty branch part. -/
theorem getGitStatus_detached_head :
    getGitStatus detachedHeadEnv emptyStateDir (.str samplePath)
      = ⟨.ok (utf16 " "),
          ⟨some ⟨.store [(samplePath, ⟨utf16 " ", 10050⟩)], .missing⟩⟩,
          [⟨.isInsideWorkTree, samplePath⟩, ⟨.branchShowCurrent, samplePath⟩,
            ⟨.statusPorcelain, samplePath⟩]⟩ := by
  decide

/-- C6 fails on the code: when the state directory is missing and cannot be
created, the exception of `mkdirSync` leaves `getGitStatus`, before any
`git` command is run. -/
theorem getGitStatus_mkdir_throws :
    getGitStatus noStateDirEnv ⟨none⟩ (.str samplePath)
      = ⟨.error .systemError, ⟨none⟩, []⟩ := by
  decide

/-- C7 fails on the code: on the input `{"model":{"display_name":5}}` the
model value is the number 5, `shortenModelName` calls `.replace` on it and
the `TypeError` ends `main` before a line is printed. -/
theorem main_numeric_model_throws :
    numericModelEnv.jsonParse numericModelInput = some numericModelDocument
      ∧ getValue numericModelDocument (utf16 "model.display_name") = .num 5
      ∧ shortenModelName (.num 5) = .error .typeError
      ∧ (main numericModelEnv emptyStateDir (some numericModelInput)).result
          = .error .typeError := by
  refine ⟨rfl, rfl, by decide, by decide⟩

/-! ## Where the branch part is empty and where an exception escapes -/

theorem getBranch_eq_nil_iff (env : Env) (w : JSString) :
    (getBranch env w).1 = [] ↔
      ∃ out, env.execSync .branchShowCurrent w = some out ∧ trim out = [] := by
  have hd : DETACHED ≠ [] := by decide
  unfold getBranch
  cases hb : env.execSync .branchShowCurrent w with
  | some out => simp
  | none =>
    cases hs : env.execSync .revParseShortHead w with
    | none => simp [hd]
    | some out =>
      by_cases ht : trim out = []
      · simp [ht, hd]
      · simp [ht]

theorem checkCacheThenFresh_ok (env : Env) (fs : FS) (w : JSString) :
    ∃ status, (checkCacheThenFresh env fs w).result = .ok status := by
  unfold checkCacheThenFresh
  cases cachedStatus env fs w with
  | some status => exact ⟨status, rfl⟩
  | none =>
    unfold freshStatus
    cases env.execSync .isInsideWorkTree w with
    | none => exact ⟨[], rfl⟩
    | some out => exact ⟨_, rfl⟩

theorem getGitStatus_throws_iff (env : Env) (fs : FS) (w : JSString) :
    (∃ e, (getGitStatus env fs (.str w)).result = .error e) ↔
      (w ≠ [] ∧ env.pathExists w = true ∧ fs.stateDir = none ∧ env.mkdirOk = false) := by
  by_cases hw : w = []
  · simp [getGitStatus, JSVal.truthy, hw]
  · cases hex : env.pathExists w with
    | false => simp [getGitStatus, existsSync, hex]
    | true =>
      rw [getGitStatus_str env fs w hw hex]
      unfold ensureStateDirThenStatus
      cases hfs : fs.stateDir with
      | some d =>
        obtain ⟨status, hs⟩ := checkCacheThenFresh_ok env fs w
        simp [hs]
      | none =>
        cases hmk : env.mkdirOk with
        | true =>
          obtain ⟨status, hs⟩ := checkCacheThenFresh_ok env ⟨some ⟨.missing, .missing⟩⟩ w
          simp [hs]
        | false => simp [hw]

theorem renderLine_throws_iff (p g : JSString) (model : JSVal) :
    (∃ e, renderLine p g model = .error e) ↔
      (model.truthy = true ∧ ∀ s, model ≠ .str s) := by
  cases model with
  | str s =>
    have h : renderLine p g (.str s) = .ok (join SEPARATOR (emittedSegments p g s)) := by
      unfold renderLine; rw [segmentsOf_str]
    simp [h]
  | undefined => simp [renderLine, segmentsOf, JSVal.truthy]
  | null => simp [renderLine, segmentsOf, JSVal.truthy]
  | bool b => cases b <;> simp [renderLine, segmentsOf, JSVal.truthy, notNullLiteral, shortenModelName]
  | num n =>
    by_cases hn : n = 0
    · simp [renderLine, segmentsOf, JSVal.truthy, hn]
    · simp [renderLine, segmentsOf, JSVal.truthy, notNullLiteral, shortenModelName, hn]
  | arr xs => simp [renderLine, segmentsOf, JSVal.truthy, notNullLiteral, shortenModelName]
  | obj props => simp [renderLine, segmentsOf, JSVal.truthy, notNullLiteral, shortenModelName]

end Statusline
